import Mathlib

/-!
Verification of the graph layout engine of the repository
(trabalho-1/string_network), a STRING protein-interaction visualizer.

The development shallowly embeds the numerical layout code:

* `addEdge` / `createNetwork` embed `network_analysis.create_network`,
  which builds the weighted undirected graph by calling
  `G.add_edge(source, target, weight=score/1000)` for each record.
* `repTerm`, `attTerm`, `displacement`, `stepPos`, `solverIter`,
  `pinAnchor`, `scaleLayout` and `forceAtlasLayout` embed the custom
  force-directed simulation in
  `visualizations.create_force_atlas_visualization` (lines 1504-1570).
* `nonRadialPerturb` / `nonRadialLayout` embed the post-seeding
  perturbation and anchor pinning of
  `visualizations.create_non_radial_ppi_visualization` (lines 294-312).

Modelling conventions: Python floats are modelled as real numbers, numpy
2-vectors as complex numbers (so that `Complex.abs` plays the role of
`np.linalg.norm`), and fallible code returns `Except`.  The seeding call
`nx.random_layout(G, seed=42)` is an external library call; its output is
modelled as an arbitrary seed position map passed as a parameter.  The
literal coefficients 0.2 / 0.05 / 0.5 / 0.95 of the source are collected
in `srcParams`; the literal iteration count 100 appears as `iterations`.
-/

namespace StringNetwork

/-- Node identifiers are the protein names of the source (Python strings). -/
abbrev Node := String

/-- The node pinned at the origin by the source:
`pos["INSR"] = np.array([0, 0])`. -/
def anchor : Node := "INSR"

/-- A graph as the force-atlas code consumes it: the node list (`G.nodes()`)
and the edge list (`G.edges()`) of a `networkx` graph.  `networkx` yields
each node once and each undirected edge once, and every edge endpoint is a
graph node; the two invariant fields record exactly that. -/
structure FGraph where
  nodes : List Node
  edges : List (Node × Node)
  nodup : nodes.Nodup
  edges_mem : ∀ e ∈ edges, e.1 ∈ nodes ∧ e.2 ∈ nodes

/-- The tunable physical constants of the simulation.  The source fixes
them as literals: `repulsion = 0.2`, `attraction = 0.05`,
`temperature = 0.5`, `cooling_factor = 0.95`. -/
structure Params where
  repulsion : ℝ
  attraction : ℝ
  temp0 : ℝ
  cooling : ℝ

/-- The literal parameter values of `create_force_atlas_visualization`. -/
noncomputable def srcParams : Params :=
  { repulsion := 0.2, attraction := 0.05, temp0 := 0.5, cooling := 0.95 }

/-- The literal iteration count of the source loop `for _ in range(100)`. -/
def iterations : ℕ := 100

/-- Temperature before iteration `t`: the source starts at `temp0` and
executes `temperature *= cooling_factor` once per iteration. -/
noncomputable def tempAt (P : Params) (t : ℕ) : ℝ := P.temp0 * P.cooling ^ t

/-- One repulsion contribution, from the body of the double node loop:
`delta = pos[node1] - pos[node2]`, `distance = max(0.01, norm(delta))`,
`force = repulsion / distance**2`, contribution `delta * force / distance`
added to `displacement[node1]`. -/
noncomputable def repTerm (P : Params) (pos : Node → ℂ) (n1 n2 : Node) : ℂ :=
  let delta := pos n1 - pos n2
  let distance : ℝ := max 0.01 (Complex.abs delta)
  let force : ℝ := P.repulsion / distance ^ 2
  delta * ((force / distance : ℝ) : ℂ)

/-- Total repulsive displacement of `n1`: the outer loop skips
`node1 == "INSR"` (`continue`), the inner loop requires `i != j` and
`node2 != "INSR"`.  Because the node list has no duplicates, the index
test `i != j` is the same as `node2 ≠ node1`. -/
noncomputable def repDisp (P : Params) (g : FGraph) (pos : Node → ℂ) (n1 : Node) : ℂ :=
  if n1 = anchor then 0
  else ((g.nodes.map fun n2 =>
    if n2 ≠ n1 ∧ n2 ≠ anchor then repTerm P pos n1 n2 else 0)).sum

/-- One attraction contribution along an edge `(u, v)`:
`delta = pos[u] - pos[v]`, `distance = max(0.01, norm(delta))`,
`force = attraction * distance`, and `delta * force / distance` is
subtracted from `displacement[u]` and added to `displacement[v]`. -/
noncomputable def attTerm (P : Params) (pos : Node → ℂ) (u v : Node) : ℂ :=
  let delta := pos u - pos v
  let distance : ℝ := max 0.01 (Complex.abs delta)
  let force : ℝ := P.attraction * distance
  delta * ((force / distance : ℝ) : ℂ)

/-- Total attractive displacement of `n`: the edge loop skips every edge
containing the anchor (`if "INSR" in edge: continue`); on the remaining
edges the guards `u != "INSR"` / `v != "INSR"` always hold, so the
contribution is keyed only on the endpoint.  -/
noncomputable def attDisp (P : Params) (g : FGraph) (pos : Node → ℂ) (n : Node) : ℂ :=
  (g.edges.map fun e =>
    if e.1 = anchor ∨ e.2 = anchor then 0
    else (if e.1 = n then -(attTerm P pos e.1 e.2) else 0)
       + (if e.2 = n then attTerm P pos e.1 e.2 else 0)).sum

/-- The displacement dictionary of one iteration: repulsion plus
attraction accumulated on the zero-initialised entry of `n`. -/
noncomputable def displacement (P : Params) (g : FGraph) (pos : Node → ℂ) (n : Node) : ℂ :=
  repDisp P g pos n + attDisp P g pos n

/-- The position update of one iteration: every graph node other than the
anchor moves by `displacement * min(disp_length, temperature) / disp_length`
with `disp_length = max(0.01, norm(displacement))`; the anchor is skipped
(`continue`), and nodes outside the graph are not touched by the loop
`for node in G.nodes()`. -/
noncomputable def stepPos (P : Params) (g : FGraph) (temp : ℝ) (pos : Node → ℂ) :
    Node → ℂ := fun n =>
  if n ∈ g.nodes ∧ n ≠ anchor then
    let d := displacement P g pos n
    let displength : ℝ := max 0.01 (Complex.abs d)
    pos n + d * ((min displength temp / displength : ℝ) : ℂ)
  else pos n

/-- Position map after `t` iterations of the force loop, the temperature
being multiplied by the cooling factor after every iteration. -/
noncomputable def solverIter (P : Params) (g : FGraph) : ℕ → (Node → ℂ) → Node → ℂ
  | 0, pos => pos
  | t + 1, pos => stepPos P g (tempAt P t) (solverIter P g t pos)

/-- The pinning stage `pos["INSR"] = np.array([0, 0])`, executed between
seeding and the force loop. -/
def pinAnchor (pos : Node → ℂ) : Node → ℂ := fun n => if n = anchor then 0 else pos n

/-- Terminal state of a solver run.  The source loop `for _ in range(100)`
contains no convergence test, so every run ends by exhausting its
iteration budget; `converged` exists only because the specification
names both outcomes. -/
inductive SolverOutcome where
  | converged : SolverOutcome
  | maxIterationsReached : SolverOutcome
deriving DecidableEq

/-- A full solver run with an explicit iteration budget (the source
hardcodes `iterations = 100`): it performs exactly `maxIter` steps and
reports the only terminal state the code can produce. -/
noncomputable def runSolver (P : Params) (g : FGraph) (maxIter : ℕ) (pos0 : Node → ℂ) :
    SolverOutcome × (Node → ℂ) :=
  (SolverOutcome.maxIterationsReached, solverIter P g maxIter pos0)

/-- Failure of the rescaling stage.  `degenerateLayout` is the typed error
named by the specification; `zeroDivisionError` models the Python
`ZeroDivisionError` that `scale = 5.0 / max(...)` actually raises when the
bounding box has zero extent. -/
inductive LayoutError where
  | degenerateLayout : LayoutError
  | zeroDivisionError : LayoutError
deriving DecidableEq

/-- The keys of the position dictionary when the rescaling stage runs:
`nx.random_layout` keys it by `G.nodes()`, and the pinning assignment
appends `"INSR"` if it was not already a graph node. -/
def posKeys (g : FGraph) : List Node :=
  if anchor ∈ g.nodes then g.nodes else g.nodes ++ [anchor]

/-- Python `min` of a nonempty sequence of reals (the empty case never
arises: the position dictionary always contains the anchor). -/
noncomputable def listMin : List ℝ → ℝ
  | [] => 0
  | x :: xs => xs.foldl min x

/-- Python `max` of a nonempty sequence of reals. -/
noncomputable def listMax : List ℝ → ℝ
  | [] => 0
  | x :: xs => xs.foldl max x

/-- The rescaling stage: `scale = 5.0 / max(max_x - min_x, max_y - min_y)`
followed by `pos[node] = pos[node] * scale` for every key.  When both
extents are zero the division raises `ZeroDivisionError`. -/
noncomputable def scaleLayout (g : FGraph) (pos : Node → ℂ) :
    Except LayoutError (Node → ℂ) :=
  let xs := (posKeys g).map fun n => (pos n).re
  let ys := (posKeys g).map fun n => (pos n).im
  let extent := max (listMax xs - listMin xs) (listMax ys - listMin ys)
  if extent = 0 then Except.error LayoutError.zeroDivisionError
  else Except.ok fun n =>
    if n ∈ posKeys g then pos n * ((5 / extent : ℝ) : ℂ) else pos n

/-- The complete force-atlas layout pipeline: pin the anchor at the
origin, run the force loop, rescale.  `seedPos` stands for the output of
the seeded `nx.random_layout(G, seed=42)` call. -/
noncomputable def forceAtlasLayout (P : Params) (g : FGraph) (maxIter : ℕ)
    (seedPos : Node → ℂ) : Except LayoutError (Node → ℂ) :=
  scaleLayout g (solverIter P g maxIter (pinAnchor seedPos))

/-- Largest per-node applied displacement between two consecutive
position maps of a run (the observable quantified by the annealing
claim). -/
noncomputable def maxMove (g : FGraph) (p q : Node → ℂ) : ℝ :=
  listMax (g.nodes.map fun n => Complex.abs (q n - p n))

/-- The symmetry-breaking stage of
`create_non_radial_ppi_visualization`: every node position is perturbed
by two draws from the ambient (never seeded) numpy global generator,
`pos[node][0] += np.random.normal(0, 0.02)` and likewise for the second
coordinate.  The ambient generator is modelled as a stream of reals
consumed two per node in node-list order. -/
noncomputable def nonRadialPerturb (g : FGraph) (noise : ℕ → ℝ) (base : Node → ℂ) :
    Node → ℂ := fun n =>
  if n ∈ g.nodes then
    base n + ⟨noise (2 * g.nodes.indexOf n), noise (2 * g.nodes.indexOf n + 1)⟩
  else base n

/-- The final positioning of `create_non_radial_ppi_visualization`:
after the perturbation, `pos["INSR"] = np.array([0.1, 0.1])` whenever the
anchor is in the graph.  `base` stands for the deterministic output of the
three seeded library layout calls that precede the perturbation. -/
noncomputable def nonRadialLayout (g : FGraph) (noise : ℕ → ℝ) (base : Node → ℂ) :
    Node → ℂ := fun n =>
  if n = anchor ∧ anchor ∈ g.nodes then (⟨0.1, 0.1⟩ : ℂ)
  else nonRadialPerturb g noise base n

/-- Failure taxonomy of graph construction named by the specification.
The source `create_network` performs no weight validation, so no code
path produces this error; the constructor exists so that the claimed
contract can be stated against the code. -/
inductive GraphError where
  | invalidWeight : GraphError
deriving DecidableEq

/-- A weighted undirected graph as `networkx` presents it: node list in
insertion order and one weighted entry per unordered edge. -/
structure WGraph where
  nodes : List Node
  wedges : List (Node × Node × ℚ)
deriving DecidableEq

/-- Whether a stored edge entry is the unordered pair `{a, b}`. -/
def keyMatch (a b : Node) (e : Node × Node × ℚ) : Bool :=
  (e.1 == a && e.2.1 == b) || (e.1 == b && e.2.1 == a)

/-- The networkx node insertion: appends the node unless already present. -/
def insertNode (l : List Node) (n : Node) : List Node :=
  if n ∈ l then l else l ++ [n]

/-- The call `G.add_edge(a, b, weight=w)`: inserts both endpoints if missing and
inserts or overwrites the unordered edge `{a, b}` with weight `w`.  The
source performs no validation of `w`, so the operation never fails; the
`Except` result type exists to state the specified `InvalidWeight`
contract against the code. -/
def addEdge (g : WGraph) (a b : Node) (w : ℚ) : Except GraphError WGraph :=
  Except.ok
    { nodes := insertNode (insertNode g.nodes a) b,
      wedges := (g.wedges.filter fun e => !keyMatch a b e) ++ [(a, b, w)] }

/-- Weight lookup for the unordered pair `{a, b}`. -/
def findWeight (g : WGraph) (a b : Node) : Option ℚ :=
  (g.wedges.find? (keyMatch a b)).map fun e => e.2.2

/-- The builder `create_network`: folds `G.add_edge(a, b, weight=float(score)/1000)`
over the interaction records, starting from an empty graph. -/
def createNetwork (records : List (Node × Node × ℚ)) : Except GraphError WGraph :=
  records.foldlM (fun g r => addEdge g r.1 r.2.1 (r.2.2 / 1000)) ⟨[], []⟩

/-! ### General lemmas about the embedded solver -/

/-- Sums of pointwise equal maps agree. -/
lemma map_sum_congr {α : Type} (l : List α) (f g : α → ℂ)
    (h : ∀ a ∈ l, f a = g a) : (l.map f).sum = (l.map g).sum := by
  induction l with
  | nil => rfl
  | cons a l ih =>
    simp only [List.map_cons, List.sum_cons]
    rw [h a (by simp), ih fun b hb => h b (by simp [hb])]

/-- One force iteration never moves the anchor. -/
lemma stepPos_anchor (P : Params) (g : FGraph) (temp : ℝ) (pos : Node → ℂ) :
    stepPos P g temp pos anchor = pos anchor := by
  simp [stepPos]

/-- The force loop never moves the anchor. -/
lemma solverIter_anchor (P : Params) (g : FGraph) (t : ℕ) (pos : Node → ℂ) :
    solverIter P g t pos anchor = pos anchor := by
  induction t with
  | zero => rfl
  | succ t ih => rw [solverIter, stepPos_anchor, ih]

/-- The anchor is always a key of the position dictionary. -/
lemma anchor_mem_posKeys (g : FGraph) : anchor ∈ posKeys g := by
  unfold posKeys
  split <;> simp_all

/-- Clamp bound for a single node and a single iteration: the applied
move is no longer than the temperature. -/
lemma abs_stepPos_sub_le (P : Params) (g : FGraph) (temp : ℝ) (pos : Node → ℂ)
    (n : Node) (ht : 0 ≤ temp) :
    Complex.abs (stepPos P g temp pos n - pos n) ≤ temp := by
  unfold stepPos
  split
  · set d := displacement P g pos n with hd
    set L : ℝ := max 0.01 (Complex.abs d) with hL
    have hL01 : (0.01 : ℝ) ≤ L := le_max_left _ _
    have hLpos : (0 : ℝ) < L := lt_of_lt_of_le (by norm_num) hL01
    have habsle : Complex.abs d ≤ L := le_max_right _ _
    have hmin0 : 0 ≤ min L temp := le_min hLpos.le ht
    have : Complex.abs (pos n + d * ((min L temp / L : ℝ) : ℂ) - pos n)
        = Complex.abs d * (min L temp / L) := by
      rw [add_sub_cancel_left, map_mul, Complex.abs_ofReal,
        abs_of_nonneg (div_nonneg hmin0 hLpos.le)]
    rw [this]
    calc Complex.abs d * (min L temp / L)
        ≤ L * (min L temp / L) :=
          mul_le_mul_of_nonneg_right habsle (div_nonneg hmin0 hLpos.le)
      _ = min L temp := by field_simp
      _ ≤ temp := min_le_right _ _
  · simpa using ht

/-- The source temperature schedule is positive at every step. -/
lemma tempAt_src_pos (t : ℕ) : 0 < tempAt srcParams t := by
  unfold tempAt srcParams
  positivity

/-! ### C9 -/

/-- C9: running the solver with an iteration budget of zero terminates at
once in the `MaxIterationsReached` state and returns the seeded position
map unchanged in every field. -/
theorem zero_iterations_frame (P : Params) (g : FGraph) (pos0 : Node → ℂ) :
    runSolver P g 0 pos0 = (SolverOutcome.maxIterationsReached, pos0) := rfl

/-! ### C2 -/

/-- C2: in the force computation of every iteration the pinned anchor is
invisible: the displacement of every node is unchanged if the anchor is
moved to an arbitrary position (the anchor exerts no repulsion and no
attraction on anyone), and the anchor itself accumulates no displacement. -/
theorem anchor_invisible_to_forces (P : Params) (g : FGraph) (pos : Node → ℂ)
    (q : ℂ) (n : Node) :
    displacement P g (fun m => if m = anchor then q else pos m) n
      = displacement P g pos n
    ∧ displacement P g pos anchor = 0 := by
  constructor
  · unfold displacement repDisp attDisp
    by_cases hn : n = anchor
    · simp only [hn, if_pos rfl]
      congr 1
      apply map_sum_congr
      intro e _
      split
      · rfl
      · rename_i hno
        push_neg at hno
        unfold attTerm
        simp [hno.1, hno.2]
    · simp only [if_neg hn]
      congr 1
      · apply map_sum_congr
        intro n2 _
        split
        · rename_i hcond
          unfold repTerm
          simp [hn, hcond.2]
        · rfl
      · apply map_sum_congr
        intro e _
        split
        · rfl
        · rename_i hno
          push_neg at hno
          unfold attTerm
          simp [hno.1, hno.2]
  · unfold displacement repDisp attDisp
    rw [if_pos rfl]
    rw [zero_add]
    have : ∀ e ∈ g.edges,
        (if e.1 = anchor ∨ e.2 = anchor then (0 : ℂ)
         else (if e.1 = anchor then -(attTerm P pos e.1 e.2) else 0)
            + (if e.2 = anchor then attTerm P pos e.1 e.2 else 0)) = 0 := by
      intro e _
      split
      · rfl
      · rename_i hno
        push_neg at hno
        simp [hno.1, hno.2]
    calc (g.edges.map _).sum = (g.edges.map fun _ => (0 : ℂ)).sum :=
          map_sum_congr _ _ _ this
      _ = 0 := by simp

/-! ### C4 -/

/-- C4: in every iteration of a solver run with the source parameters,
the Euclidean norm of the applied position update of every node is at
most the temperature in force at that step. -/
theorem step_move_le_temperature (g : FGraph) (p0 : Node → ℂ) (t : ℕ) (n : Node) :
    Complex.abs (solverIter srcParams g (t + 1) p0 n - solverIter srcParams g t p0 n)
      ≤ tempAt srcParams t := by
  rw [solverIter]
  exact abs_stepPos_sub_le _ _ _ _ _ (tempAt_src_pos t).le

/-! ### C10 -/

/-- Accumulated drift after `t` iterations is bounded by the partial
geometric sum of the temperatures. -/
lemma drift_le_geom (g : FGraph) (p0 : Node → ℂ) (n : Node) : ∀ t : ℕ,
    Complex.abs (solverIter srcParams g t p0 n - p0 n)
      ≤ 10 * (1 - (0.95 : ℝ) ^ t) := by
  intro t
  induction t with
  | zero => simp [solverIter]
  | succ t ih =>
    have h1 := step_move_le_temperature g p0 t n
    have htri := Complex.abs.sub_le (solverIter srcParams g (t + 1) p0 n)
      (solverIter srcParams g t p0 n) (p0 n)
    have hT : tempAt srcParams t = 0.5 * (0.95 : ℝ) ^ t := by
      unfold tempAt srcParams
      norm_num
    calc Complex.abs (solverIter srcParams g (t + 1) p0 n - p0 n)
        ≤ Complex.abs (solverIter srcParams g (t + 1) p0 n - solverIter srcParams g t p0 n)
          + Complex.abs (solverIter srcParams g t p0 n - p0 n) := htri
      _ ≤ 0.5 * (0.95 : ℝ) ^ t + 10 * (1 - (0.95 : ℝ) ^ t) := by
          rw [hT] at h1
          exact add_le_add h1 ih
      _ = 10 * (1 - (0.95 : ℝ) ^ (t + 1)) := by ring

/-- C10: every node of every run stays within
`initialTemperature / (1 - coolingFactor) = 0.5 / 0.05 = 10` of its
seeded (post-pinning) position, at every stage of the force loop. -/
theorem total_drift_le_ten (g : FGraph) (seedPos : Node → ℂ) (t : ℕ) (n : Node) :
    Complex.abs (solverIter srcParams g t (pinAnchor seedPos) n - pinAnchor seedPos n)
      ≤ 10 := by
  have h := drift_le_geom g (pinAnchor seedPos) n t
  have hpow : (0 : ℝ) ≤ (0.95 : ℝ) ^ t := by positivity
  nlinarith

/-! ### C1 -/

/-- C1: on every run the pinned anchor stays where the pinning stage put
it: its coordinate is unchanged after every iteration of the force loop,
and still unchanged after the final uniform rescaling stage (the source
pins the anchor at the origin, and rescaling multiplies the origin by the
scale factor). -/
theorem anchor_fixed_through_run (P : Params) (g : FGraph) (maxIter : ℕ)
    (seedPos : Node → ℂ) :
    (∀ t, solverIter P g t (pinAnchor seedPos) anchor = pinAnchor seedPos anchor)
    ∧ ∀ m, forceAtlasLayout P g maxIter seedPos = Except.ok m →
        m anchor = pinAnchor seedPos anchor := by
  have hpin : pinAnchor seedPos anchor = 0 := by simp [pinAnchor]
  refine ⟨fun t => solverIter_anchor P g t _, fun m hm => ?_⟩
  unfold forceAtlasLayout scaleLayout at hm
  dsimp only [] at hm
  split at hm
  · cases hm
  · rw [Except.ok.injEq] at hm
    rw [← hm]
    simp only
    rw [if_pos (anchor_mem_posKeys g), solverIter_anchor, hpin]
    simp

/-- Two-node witness graph for the pipeline: the anchor and one free
node, no edges. -/
def gW : FGraph where
  nodes := ["INSR", "X"]
  edges := []
  nodup := by decide
  edges_mem := by simp

/-- Witness seed map: every node seeded at coordinate (1, 0). -/
noncomputable def p0W : Node → ℂ := fun _ => 1

/-- On the witness graph every force iteration is the identity: the free
node has no non-anchor partner and no non-anchor edge, so its
displacement is zero. -/
lemma stepPos_gW (P : Params) (temp : ℝ) (pos : Node → ℂ) :
    stepPos P gW temp pos = pos := by
  funext n
  unfold stepPos
  split
  · rename_i h
    obtain ⟨hmem, hne⟩ := h
    have hx : n = "X" := by
      have : n = "INSR" ∨ n = "X" := by simpa [gW] using hmem
      rcases this with h1 | h2
      · exact absurd h1 hne
      · exact h2
    subst hx
    have hdisp : displacement P gW pos "X" = 0 := by
      simp [displacement, repDisp, attDisp, gW, anchor]
    rw [hdisp]
    simp
  · rfl

/-- The force loop is the identity on the witness graph. -/
lemma solverIter_gW (P : Params) (t : ℕ) (pos : Node → ℂ) :
    solverIter P gW t pos = pos := by
  induction t with
  | zero => rfl
  | succ t ih => rw [solverIter, ih, stepPos_gW]

/-- The scaled output map of the witness run. -/
noncomputable def mW : Node → ℂ := fun n =>
  if n = "INSR" then 0 else if n = "X" then 5 else 1

/-- Rescaling the pinned unit seed on any graph whose position keys are
exactly the anchor and `"X"` succeeds with scale factor 5 and yields
`mW`. -/
lemma scaleLayout_pin_unit (g : FGraph) (hkeys : posKeys g = ["INSR", "X"]) :
    scaleLayout g (pinAnchor p0W) = Except.ok mW := by
  unfold scaleLayout
  rw [hkeys]
  have hpos1 : pinAnchor p0W "INSR" = 0 := by simp [pinAnchor, anchor]
  have hpos2 : pinAnchor p0W "X" = 1 := by simp [pinAnchor, anchor, p0W]
  simp only [List.map_cons, List.map_nil, hpos1, hpos2, Complex.zero_re,
    Complex.one_re, Complex.zero_im, Complex.one_im]
  have hmax : listMax [(0 : ℝ), 1] = 1 := by
    unfold listMax
    simp [List.foldl]
  have hmin : listMin [(0 : ℝ), 1] = 0 := by
    unfold listMin
    simp [List.foldl]
  have hmax0 : listMax [(0 : ℝ), 0] = 0 := by
    unfold listMax
    simp [List.foldl]
  have hmin0 : listMin [(0 : ℝ), 0] = 0 := by
    unfold listMin
    simp [List.foldl]
  rw [hmax, hmin, hmax0, hmin0]
  norm_num
  funext n
  by_cases h1 : n = "INSR"
  · subst h1
    simp [mW, hpos1]
  · by_cases h2 : n = "X"
    · subst h2
      rw [if_pos (by simp)]
      rw [hpos2]
      unfold mW
      rw [if_neg (by decide)]
      norm_num
    · rw [if_neg (by simp [h1, h2])]
      simp [mW, h1, h2, pinAnchor, anchor, p0W]

/-- Evaluation of the witness pipeline: the run succeeds and produces
`mW`. -/
lemma forceAtlasLayout_gW :
    forceAtlasLayout srcParams gW iterations p0W = Except.ok mW := by
  unfold forceAtlasLayout
  rw [solverIter_gW]
  exact scaleLayout_pin_unit gW
    (by unfold posKeys; rw [if_pos (show anchor ∈ gW.nodes by decide)]; rfl)

/-- Witness for C1: on the concrete two-node run the pipeline succeeds
and the anchor coordinate after rescaling equals its pinned coordinate. -/
theorem anchor_fixed_through_run_witness :
    forceAtlasLayout srcParams gW iterations p0W = Except.ok mW
    ∧ mW anchor = pinAnchor p0W anchor :=
  ⟨forceAtlasLayout_gW,
    (anchor_fixed_through_run srcParams gW iterations p0W).2 mW forceAtlasLayout_gW⟩

/-! ### C6 -/

/-- C6 (amended): edge insertion never fails.  Every weight, in range or
not, is accepted; the edge is inserted or overwritten with exactly the
supplied weight. -/
theorem addEdge_never_fails (g : WGraph) (a b : Node) (w : ℚ) :
    ∃ g2, addEdge g a b w = Except.ok g2 ∧ findWeight g2 a b = some w := by
  refine ⟨_, rfl, ?_⟩
  unfold findWeight
  have hkm : keyMatch a b (a, b, w) = true := by
    simp [keyMatch]
  have hfind : ∀ l : List (Node × Node × ℚ),
      ((l.filter fun e => !keyMatch a b e) ++ [(a, b, w)]).find? (keyMatch a b)
        = some (a, b, w) := by
    intro l
    induction l with
    | nil => simp [List.find?, hkm]
    | cons e l ih =>
      by_cases he : keyMatch a b e = true
      · rw [List.filter_cons_of_neg (by simp [he])]
        exact ih
      · rw [List.filter_cons_of_pos (by simp [he])]
        rw [List.cons_append, List.find?_cons_of_neg _ he]
        exact ih
  rw [hfind]
  rfl

/-- Counterexample for C6: the out-of-range weight 1.5 is accepted, not
rejected with `InvalidWeight` as claimed. -/
theorem addEdge_accepts_excess_weight :
    addEdge ⟨[], []⟩ "A" "B" (3 / 2)
      = Except.ok ⟨["A", "B"], [("A", "B", 3 / 2)]⟩
    ∧ addEdge ⟨[], []⟩ "A" "B" (3 / 2)
        ≠ Except.error GraphError.invalidWeight := by
  have h : addEdge ⟨[], []⟩ "A" "B" (3 / 2)
      = Except.ok ⟨["A", "B"], [("A", "B", 3 / 2)]⟩ := by
    unfold addEdge insertNode
    norm_num
    decide
  exact ⟨h, by rw [h]; exact fun hc => Except.noConfusion hc⟩

/-! ### C7 -/

/-- Folding `max` over a list of copies of the accumulator returns the
accumulator. -/
lemma foldl_max_const (c : ℝ) : ∀ l : List ℝ, (∀ x ∈ l, x = c) →
    l.foldl max c = c := by
  intro l
  induction l with
  | nil => intro _; rfl
  | cons x l ih =>
    intro h
    have hx : x = c := h x (by simp)
    simp only [List.foldl, hx, max_self]
    exact ih fun y hy => h y (by simp [hy])

/-- Folding `min` over a list of copies of the accumulator returns the
accumulator. -/
lemma foldl_min_const (c : ℝ) : ∀ l : List ℝ, (∀ x ∈ l, x = c) →
    l.foldl min c = c := by
  intro l
  induction l with
  | nil => intro _; rfl
  | cons x l ih =>
    intro h
    have hx : x = c := h x (by simp)
    simp only [List.foldl, hx, min_self]
    exact ih fun y hy => h y (by simp [hy])

/-- On a constant nonempty list, `listMax` returns the constant. -/
lemma listMax_const (c : ℝ) (l : List ℝ) (h : ∀ x ∈ l, x = c) (hne : l ≠ []) :
    listMax l = c := by
  cases l with
  | nil => exact absurd rfl hne
  | cons x xs =>
    have hx : x = c := h x (by simp)
    unfold listMax
    rw [hx]
    exact foldl_max_const c xs fun y hy => h y (by simp [hy])

/-- On a constant nonempty list, `listMin` returns the constant. -/
lemma listMin_const (c : ℝ) (l : List ℝ) (h : ∀ x ∈ l, x = c) (hne : l ≠ []) :
    listMin l = c := by
  cases l with
  | nil => exact absurd rfl hne
  | cons x xs =>
    have hx : x = c := h x (by simp)
    unfold listMin
    rw [hx]
    exact foldl_min_const c xs fun y hy => h y (by simp [hy])

/-- Shared evaluation: on a layout whose keys all hold one coordinate the
rescaling stage raises the division-by-zero error. -/
lemma scaleLayout_const_error (g : FGraph) (pos : Node → ℂ) (c : ℂ)
    (h : ∀ n ∈ posKeys g, pos n = c) :
    scaleLayout g pos = Except.error LayoutError.zeroDivisionError := by
  have hne : posKeys g ≠ [] := List.ne_nil_of_mem (anchor_mem_posKeys g)
  have hnex : (posKeys g).map (fun n => (pos n).re) ≠ [] := by
    simpa using hne
  have hney : (posKeys g).map (fun n => (pos n).im) ≠ [] := by
    simpa using hne
  have hxall : ∀ x ∈ (posKeys g).map (fun n => (pos n).re), x = c.re := by
    intro x hx
    obtain ⟨n, hn, rfl⟩ := List.mem_map.mp hx
    rw [h n hn]
  have hyall : ∀ y ∈ (posKeys g).map (fun n => (pos n).im), y = c.im := by
    intro y hy
    obtain ⟨n, hn, rfl⟩ := List.mem_map.mp hy
    rw [h n hn]
  unfold scaleLayout
  dsimp only []
  rw [listMax_const c.re _ hxall hnex, listMin_const c.re _ hxall hnex,
    listMax_const c.im _ hyall hney, listMin_const c.im _ hyall hney]
  simp

/-- C7 (amended): a layout in which all nodes coincide makes the rescale
stage fail with the (uncaught) division-by-zero error of
`scale = 5.0 / 0.0`; no `DegenerateLayout` value and no recovery path
exist in the code. -/
theorem degenerate_rescale_divides_by_zero (g : FGraph) (pos : Node → ℂ) (c : ℂ)
    (h : ∀ n ∈ posKeys g, pos n = c) :
    scaleLayout g pos = Except.error LayoutError.zeroDivisionError :=
  scaleLayout_const_error g pos c h

/-- Degenerate witness graph: two free nodes, no edges. -/
def gD : FGraph where
  nodes := ["A", "B"]
  edges := []
  nodup := by decide
  edges_mem := by simp

/-- Degenerate layout: every node at the origin. -/
noncomputable def pD : Node → ℂ := fun _ => 0

/-- Witness for the amended C7: the all-coincident layout on the concrete
two-node graph takes the division-by-zero branch. -/
theorem degenerate_rescale_divides_by_zero_witness :
    scaleLayout gD pD = Except.error LayoutError.zeroDivisionError :=
  degenerate_rescale_divides_by_zero gD pD 0 fun _ _ => rfl

/-- Counterexample for C7: on the all-coincident layout the rescale stage
does not fail with the typed `DegenerateLayout` error the claim names
(it raises the untyped Python `ZeroDivisionError` instead). -/
theorem degenerate_rescale_not_typed :
    scaleLayout gD pD ≠ Except.error LayoutError.degenerateLayout := by
  rw [scaleLayout_const_error gD pD 0 fun _ _ => rfl]
  intro hc
  rw [Except.error.injEq] at hc
  cases hc

/-! ### C3 -/

/-- C3 (amended): the force-atlas pipeline is a pure function of graph,
seed positions, parameters and iteration budget, so two runs on
extensionally identical inputs return bit-identical results. -/
theorem force_atlas_deterministic (P : Params) (g : FGraph) (maxIter : ℕ)
    (p q : Node → ℂ) (h : ∀ n, p n = q n) :
    forceAtlasLayout P g maxIter p = forceAtlasLayout P g maxIter q := by
  rw [funext h]

/-- Witness for the amended C3: rerunning the concrete witness pipeline
on a second copy of the same seed map gives the identical result. -/
theorem force_atlas_deterministic_witness :
    forceAtlasLayout srcParams gW iterations p0W
      = forceAtlasLayout srcParams gW iterations fun _ => 1 :=
  force_atlas_deterministic srcParams gW iterations p0W (fun _ => 1) fun _ => rfl

/-- Counterexample for C3: the non-radial layout draws from the ambient
(never seeded) numpy generator after its seeded stages, so two complete
runs with identical graph, seed and parameters — differing only in the
ambient generator state — produce different position maps. -/
theorem nonradial_runs_differ :
    nonRadialLayout gD (fun _ => 0) pD ≠ nonRadialLayout gD (fun _ => 1) pD := by
  intro h
  have h2 := congrFun h "A"
  have hmem : "A" ∈ gD.nodes := by decide
  have hanch : ¬("A" = anchor ∧ anchor ∈ gD.nodes) := by decide
  simp only [nonRadialLayout, nonRadialPerturb, if_neg hanch, if_pos hmem, pD] at h2
  have h3 := congrArg Complex.im h2
  simp [Complex.add_im] at h3

/-! ### C5 -/

/-- Single-pinned-edge graph: the anchor joined to one free node. -/
def gXE : FGraph where
  nodes := ["INSR", "X"]
  edges := [("INSR", "X")]
  nodup := by decide
  edges_mem := by decide

/-- The parameter set named by the claim: repulsion 1.0 and
attraction 0.05 (temperature schedule as in the source). -/
noncomputable def claimParams : Params :=
  { repulsion := 1, attraction := 0.05, temp0 := 0.5, cooling := 0.95 }

/-- On the single-pinned-edge graph one iteration changes nothing: the
only repulsion partner of the free node is the anchor (skipped) and its
only edge contains the anchor (skipped), so its displacement is zero. -/
lemma stepPos_gXE (P : Params) (temp : ℝ) (pos : Node → ℂ) :
    stepPos P gXE temp pos = pos := by
  funext n
  unfold stepPos
  split
  · rename_i h
    obtain ⟨hmem, hne⟩ := h
    have hx : n = "X" := by
      have : n = "INSR" ∨ n = "X" := by simpa [gXE] using hmem
      rcases this with h1 | h2
      · exact absurd h1 hne
      · exact h2
    subst hx
    have hdisp : displacement P gXE pos "X" = 0 := by
      simp [displacement, repDisp, attDisp, gXE, anchor]
    rw [hdisp]
    simp
  · rfl

/-- The force loop is the identity on the single-pinned-edge graph. -/
lemma solverIter_gXE (P : Params) (t : ℕ) (pos : Node → ℂ) :
    solverIter P gXE t pos = pos := by
  induction t with
  | zero => rfl
  | succ t ih => rw [solverIter, ih, stepPos_gXE]

/-- C5 (amended): with the source pinned-invisible behaviour, the solver
applies no force at all on a graph with exactly one edge whose one
endpoint is the pinned anchor: every position — in particular the free
endpoint — is frozen at its seed for every parameter set and every
number of iterations, so the separation is set by the seed and the final
rescale, not by the equilibrium of repulsion against attraction. -/
theorem single_pinned_edge_frozen (P : Params) (t : ℕ) (pos : Node → ℂ) :
    solverIter P gXE t pos = pos :=
  solverIter_gXE P t pos

/-- Counterexample for C5: on the single-pinned-edge graph with the
claimed coefficients (repulsion 1.0, attraction 0.05) and the free node
seeded at distance 1, the pipeline ends with separation exactly 5 — not
within any small tolerance of the claimed equilibrium distance 2.714. -/
theorem single_pinned_edge_not_equilibrium :
    forceAtlasLayout claimParams gXE iterations p0W = Except.ok mW
    ∧ Complex.abs (mW "X" - mW "INSR") = 5
    ∧ ¬(|(5 : ℝ) - 2.714| ≤ 1) := by
  have htol : |(5 : ℝ) - 2.714| = 2.286 := by
    rw [abs_of_nonneg] <;> norm_num
  refine ⟨?_, ?_, by rw [htol]; norm_num⟩
  · unfold forceAtlasLayout
    rw [solverIter_gXE]
    exact scaleLayout_pin_unit gXE
      (by unfold posKeys; rw [if_pos (show anchor ∈ gXE.nodes by decide)]; rfl)
  · have hx : mW "X" = 5 := by
      unfold mW
      rw [if_neg (by decide), if_pos rfl]
    have hi : mW "INSR" = 0 := by
      unfold mW
      rw [if_pos rfl]
    rw [hx, hi, sub_zero]
    have : ((5 : ℂ)) = ((5 : ℝ) : ℂ) := by norm_cast
    rw [this, Complex.abs_ofReal]
    norm_num

/-! ### C8

To evaluate the solver on concrete collinear layouts we mirror the force
computation over real positions (all nodes on the x-axis) and prove once
that the complex-valued embedding collapses to this real computation on
such layouts. -/

/-- Real-line restriction of `repTerm`. -/
noncomputable def repTermR (P : Params) (f : Node → ℝ) (n1 n2 : Node) : ℝ :=
  let delta := f n1 - f n2
  let distance : ℝ := max 0.01 |delta|
  let force : ℝ := P.repulsion / distance ^ 2
  delta * (force / distance)

/-- Real-line restriction of `repDisp`. -/
noncomputable def repDispR (P : Params) (g : FGraph) (f : Node → ℝ) (n1 : Node) : ℝ :=
  if n1 = anchor then 0
  else ((g.nodes.map fun n2 =>
    if n2 ≠ n1 ∧ n2 ≠ anchor then repTermR P f n1 n2 else 0)).sum

/-- Real-line restriction of `attTerm`. -/
noncomputable def attTermR (P : Params) (f : Node → ℝ) (u v : Node) : ℝ :=
  let delta := f u - f v
  let distance : ℝ := max 0.01 |delta|
  let force : ℝ := P.attraction * distance
  delta * (force / distance)

/-- Real-line restriction of `attDisp`. -/
noncomputable def attDispR (P : Params) (g : FGraph) (f : Node → ℝ) (n : Node) : ℝ :=
  (g.edges.map fun e =>
    if e.1 = anchor ∨ e.2 = anchor then 0
    else (if e.1 = n then -(attTermR P f e.1 e.2) else 0)
       + (if e.2 = n then attTermR P f e.1 e.2 else 0)).sum

/-- Real-line restriction of `displacement`. -/
noncomputable def displacementR (P : Params) (g : FGraph) (f : Node → ℝ) (n : Node) : ℝ :=
  repDispR P g f n + attDispR P g f n

/-- Real-line restriction of `stepPos`. -/
noncomputable def stepPosR (P : Params) (g : FGraph) (temp : ℝ) (f : Node → ℝ) :
    Node → ℝ := fun n =>
  if n ∈ g.nodes ∧ n ≠ anchor then
    let d := displacementR P g f n
    let displength : ℝ := max 0.01 |d|
    f n + d * (min displength temp / displength)
  else f n

/-- Casting a summed real list into the complex numbers. -/
lemma ofReal_listSum {α : Type} (l : List α) (h : α → ℝ) :
    (l.map fun a => ((h a : ℝ) : ℂ)).sum = (((l.map h).sum : ℝ) : ℂ) := by
  induction l with
  | nil => simp
  | cons a l ih => simp [ih]

/-- On real-valued layouts `repTerm` collapses to `repTermR`. -/
lemma repTerm_ofReal (P : Params) (f : Node → ℝ) (n1 n2 : Node) :
    repTerm P (fun n => ((f n : ℝ) : ℂ)) n1 n2 = ((repTermR P f n1 n2 : ℝ) : ℂ) := by
  simp only [repTerm, repTermR, ← Complex.ofReal_sub, Complex.abs_ofReal,
    ← Complex.ofReal_mul]

/-- On real-valued layouts `attTerm` collapses to `attTermR`. -/
lemma attTerm_ofReal (P : Params) (f : Node → ℝ) (u v : Node) :
    attTerm P (fun n => ((f n : ℝ) : ℂ)) u v = ((attTermR P f u v : ℝ) : ℂ) := by
  simp only [attTerm, attTermR, ← Complex.ofReal_sub, Complex.abs_ofReal,
    ← Complex.ofReal_mul]

/-- On real-valued layouts `repDisp` collapses to `repDispR`. -/
lemma repDisp_ofReal (P : Params) (g : FGraph) (f : Node → ℝ) (n1 : Node) :
    repDisp P g (fun n => ((f n : ℝ) : ℂ)) n1 = ((repDispR P g f n1 : ℝ) : ℂ) := by
  unfold repDisp repDispR
  by_cases h : n1 = anchor
  · simp [h]
  · rw [if_neg h, if_neg h]
    calc (g.nodes.map fun n2 =>
          if n2 ≠ n1 ∧ n2 ≠ anchor then repTerm P (fun n => ((f n : ℝ) : ℂ)) n1 n2
          else 0).sum
        = (g.nodes.map fun n2 =>
            (((if n2 ≠ n1 ∧ n2 ≠ anchor then repTermR P f n1 n2 else 0 : ℝ)) : ℂ)).sum := by
          apply map_sum_congr
          intro a _
          by_cases hc : a ≠ n1 ∧ a ≠ anchor
          · rw [if_pos hc, if_pos hc, repTerm_ofReal]
          · rw [if_neg hc, if_neg hc, Complex.ofReal_zero]
      _ = _ := ofReal_listSum _ _

/-- On real-valued layouts `attDisp` collapses to `attDispR`. -/
lemma attDisp_ofReal (P : Params) (g : FGraph) (f : Node → ℝ) (n : Node) :
    attDisp P g (fun m => ((f m : ℝ) : ℂ)) n = ((attDispR P g f n : ℝ) : ℂ) := by
  unfold attDisp attDispR
  calc (g.edges.map fun e =>
        if e.1 = anchor ∨ e.2 = anchor then 0
        else (if e.1 = n then -(attTerm P (fun m => ((f m : ℝ) : ℂ)) e.1 e.2) else 0)
           + (if e.2 = n then attTerm P (fun m => ((f m : ℝ) : ℂ)) e.1 e.2 else 0)).sum
      = (g.edges.map fun e =>
          (((if e.1 = anchor ∨ e.2 = anchor then 0
             else (if e.1 = n then -(attTermR P f e.1 e.2) else 0)
                + (if e.2 = n then attTermR P f e.1 e.2 else 0) : ℝ)) : ℂ)).sum := by
        apply map_sum_congr
        intro e _
        by_cases hc1 : e.1 = anchor ∨ e.2 = anchor
        · rw [if_pos hc1, if_pos hc1, Complex.ofReal_zero]
        · rw [if_neg hc1, if_neg hc1, Complex.ofReal_add]
          congr 1
          · by_cases hc2 : e.1 = n
            · rw [if_pos hc2, if_pos hc2, attTerm_ofReal, Complex.ofReal_neg]
            · rw [if_neg hc2, if_neg hc2, Complex.ofReal_zero]
          · by_cases hc3 : e.2 = n
            · rw [if_pos hc3, if_pos hc3, attTerm_ofReal]
            · rw [if_neg hc3, if_neg hc3, Complex.ofReal_zero]
    _ = _ := ofReal_listSum _ _

/-- On real-valued layouts `displacement` collapses to `displacementR`. -/
lemma displacement_ofReal (P : Params) (g : FGraph) (f : Node → ℝ) (n : Node) :
    displacement P g (fun m => ((f m : ℝ) : ℂ)) n
      = ((displacementR P g f n : ℝ) : ℂ) := by
  unfold displacement displacementR
  rw [repDisp_ofReal, attDisp_ofReal, ← Complex.ofReal_add]

/-- On real-valued layouts one force iteration collapses to the real
computation: collinear layouts stay collinear. -/
lemma stepPos_ofReal (P : Params) (g : FGraph) (temp : ℝ) (f : Node → ℝ) :
    stepPos P g temp (fun n => ((f n : ℝ) : ℂ))
      = fun n => ((stepPosR P g temp f n : ℝ) : ℂ) := by
  funext n
  simp only [stepPos, stepPosR]
  by_cases hc : n ∈ g.nodes ∧ n ≠ anchor
  · rw [if_pos hc, if_pos hc, displacement_ofReal]
    simp only [Complex.abs_ofReal, ← Complex.ofReal_mul, ← Complex.ofReal_add]
  · rw [if_neg hc, if_neg hc]

/-- Counterexample graph for the annealing claim: a complete graph on
four free nodes (the anchor is absent, so pinning does not interfere). -/
def gC8 : FGraph where
  nodes := ["A", "B", "C", "D"]
  edges := [("A", "B"), ("A", "C"), ("A", "D"), ("B", "C"), ("B", "D"), ("C", "D")]
  nodup := by decide
  edges_mem := by decide

/-- Collinear layout of the four counterexample nodes. -/
def quadR (a b c d : ℝ) : Node → ℝ := fun n =>
  if n = "A" then a else if n = "B" then b
  else if n = "C" then c else if n = "D" then d else 0

/-- Counterexample seed: A, B, C, D on the x-axis at 0, -1, -2, -1/2. -/
noncomputable def p0R : Node → ℝ := quadR 0 (-1) (-2) (-1/2)

/-- Exact positions after one iteration of the counterexample run. -/
noncomputable def p1R : Node → ℝ := quadR (1/2) (-3/2) (-761/360) (-35/72)

/-- Exact positions after two iterations of the counterexample run. -/
noncomputable def p2R : Node → ℝ := quadR
  (225393104547/446370972100) (-28470204407/26027368900)
  (-2093923261978652509/835375151790074025) (-261794836593968/518895825111225)

/-- The counterexample seed as a complex position map. -/
noncomputable def pos8 : Node → ℂ := fun n => ((p0R n : ℝ) : ℂ)

/-- Pinning is inert on the counterexample seed (the anchor is not a
node of `gC8` and the seed already holds it at the origin). -/
lemma pin_pos8 : pinAnchor pos8 = pos8 := by
  funext n
  unfold pinAnchor
  split
  · rename_i h
    simp [pos8, p0R, quadR, h, anchor]
  · rfl

/-- Exact evaluation of iteration 1 of the counterexample run. -/
lemma stepR1 : stepPosR srcParams gC8 (tempAt srcParams 0) p0R = p1R := by
  funext n
  by_cases hA : n = "A"
  · subst hA
    simp [stepPosR, displacementR, repDispR, attDispR, repTermR, attTermR,
      gC8, p0R, p1R, quadR, srcParams, tempAt, anchor]
    norm_num [abs_of_nonneg, abs_of_nonpos, max_def, min_def]
  · by_cases hB : n = "B"
    · subst hB
      simp [stepPosR, displacementR, repDispR, attDispR, repTermR, attTermR,
        gC8, p0R, p1R, quadR, srcParams, tempAt, anchor]
      norm_num [abs_of_nonneg, abs_of_nonpos, max_def, min_def]
    · by_cases hC : n = "C"
      · subst hC
        simp [stepPosR, displacementR, repDispR, attDispR, repTermR, attTermR,
          gC8, p0R, p1R, quadR, srcParams, tempAt, anchor]
        norm_num [abs_of_nonneg, abs_of_nonpos, max_def, min_def]
      · by_cases hD : n = "D"
        · subst hD
          simp [stepPosR, displacementR, repDispR, attDispR, repTermR, attTermR,
            gC8, p0R, p1R, quadR, srcParams, tempAt, anchor]
          norm_num [abs_of_nonneg, abs_of_nonpos, max_def, min_def]
        · have hmem : ¬(n ∈ gC8.nodes ∧ n ≠ anchor) := by
            rintro ⟨hm, -⟩
            simp [gC8] at hm
            rcases hm with h | h | h | h <;> simp_all
          unfold stepPosR
          rw [if_neg hmem]
          simp [p0R, p1R, quadR, hA, hB, hC, hD]

/-- Exact evaluation of iteration 2 of the counterexample run. -/
lemma stepR2 : stepPosR srcParams gC8 (tempAt srcParams 1) p1R = p2R := by
  funext n
  by_cases hA : n = "A"
  · subst hA
    simp [stepPosR, displacementR, repDispR, attDispR, repTermR, attTermR,
      gC8, p1R, p2R, quadR, srcParams, tempAt, anchor]
    norm_num [abs_of_nonneg, abs_of_nonpos, max_def, min_def]
  · by_cases hB : n = "B"
    · subst hB
      simp [stepPosR, displacementR, repDispR, attDispR, repTermR, attTermR,
        gC8, p1R, p2R, quadR, srcParams, tempAt, anchor]
      norm_num [abs_of_nonneg, abs_of_nonpos, max_def, min_def]
    · by_cases hC : n = "C"
      · subst hC
        simp [stepPosR, displacementR, repDispR, attDispR, repTermR, attTermR,
          gC8, p1R, p2R, quadR, srcParams, tempAt, anchor]
        norm_num [abs_of_nonneg, abs_of_nonpos, max_def, min_def]
      · by_cases hD : n = "D"
        · subst hD
          simp [stepPosR, displacementR, repDispR, attDispR, repTermR, attTermR,
            gC8, p1R, p2R, quadR, srcParams, tempAt, anchor]
          norm_num [abs_of_nonneg, abs_of_nonpos, max_def, min_def]
        · have hmem : ¬(n ∈ gC8.nodes ∧ n ≠ anchor) := by
            rintro ⟨hm, -⟩
            simp [gC8] at hm
            rcases hm with h | h | h | h <;> simp_all
          unfold stepPosR
          rw [if_neg hmem]
          simp [p1R, p2R, quadR, hA, hB, hC, hD]

/-- At iteration 3 the displacement of node B exceeds the temperature, so
its applied move is clamped to exactly the step temperature 361/800. -/
lemma moveB3 :
    |stepPosR srcParams gC8 (tempAt srcParams 2) p2R "B" - p2R "B"| = 361 / 800 := by
  simp [stepPosR, displacementR, repDispR, attDispR, repTermR, attTermR,
    gC8, p2R, quadR, srcParams, tempAt, anchor]
  norm_num [abs_of_nonneg, abs_of_nonpos, max_def, min_def]

/-- A `max`-fold dominates a bound shared by the accumulator and every
element. -/
lemma foldl_max_le (c : ℝ) : ∀ (l : List ℝ) (a : ℝ), a ≤ c → (∀ x ∈ l, x ≤ c) →
    l.foldl max a ≤ c := by
  intro l
  induction l with
  | nil => intro a ha _; exact ha
  | cons x xs ih =>
    intro a ha h
    exact ih (max a x) (max_le ha (h x (by simp))) fun y hy => h y (by simp [hy])

/-- The `listMax` of a list of values bounded by a nonnegative `c` is at most
`c`. -/
lemma listMax_le (l : List ℝ) (c : ℝ) (hc : 0 ≤ c) (h : ∀ x ∈ l, x ≤ c) :
    listMax l ≤ c := by
  cases l with
  | nil => exact hc
  | cons x xs =>
    exact foldl_max_le c xs x (h x (by simp)) fun y hy => h y (by simp [hy])

/-- A `max`-fold dominates its accumulator. -/
lemma le_foldl_max : ∀ (l : List ℝ) (a : ℝ), a ≤ l.foldl max a := by
  intro l
  induction l with
  | nil => intro a; exact le_refl a
  | cons x xs ih =>
    intro a
    exact le_trans (le_max_left a x) (ih (max a x))

/-- A `max`-fold dominates every list element. -/
lemma mem_le_foldl_max : ∀ (l : List ℝ) (a x : ℝ), x ∈ l → x ≤ l.foldl max a := by
  intro l
  induction l with
  | nil => intro a x hx; cases hx
  | cons y ys ih =>
    intro a x hx
    rcases List.mem_cons.mp hx with h | h
    · subst h
      exact le_trans (le_max_right a x) (le_foldl_max ys (max a x))
    · exact ih (max a y) x h

/-- Every element of a list is at most its `listMax`. -/
lemma le_listMax (l : List ℝ) (x : ℝ) (h : x ∈ l) : x ≤ listMax l := by
  cases l with
  | nil => cases h
  | cons y ys =>
    rcases List.mem_cons.mp h with h1 | h1
    · subst h1
      exact le_foldl_max ys x
    · exact mem_le_foldl_max ys y x h1

/-- The largest move applied at iteration 2 of the counterexample run is
strictly below 361/800. -/
lemma maxMove2_lt :
    maxMove gC8 (fun n => ((p1R n : ℝ) : ℂ)) (fun n => ((p2R n : ℝ) : ℂ))
      < 361 / 800 := by
  unfold maxMove
  simp only [← Complex.ofReal_sub, Complex.abs_ofReal]
  have hnodes : gC8.nodes = ["A", "B", "C", "D"] := rfl
  rw [hnodes]
  simp only [List.map_cons, List.map_nil]
  unfold listMax
  simp only [List.foldl]
  simp [p1R, p2R, quadR]
  norm_num [abs_of_nonneg, abs_of_nonpos, max_def, min_def]

/-- The largest move applied at iteration 3 of the counterexample run is
at least 361/800 (node B is clamped to the temperature). -/
lemma maxMove3_ge :
    361 / 800
      ≤ maxMove gC8 (fun n => ((p2R n : ℝ) : ℂ))
          (fun n => ((stepPosR srcParams gC8 (tempAt srcParams 2) p2R n : ℝ) : ℂ)) := by
  unfold maxMove
  simp only [← Complex.ofReal_sub, Complex.abs_ofReal]
  have hmem : |stepPosR srcParams gC8 (tempAt srcParams 2) p2R "B" - p2R "B"|
      ∈ gC8.nodes.map fun n =>
        |stepPosR srcParams gC8 (tempAt srcParams 2) p2R n - p2R n| :=
    List.mem_map_of_mem _ (by decide)
  have := le_listMax _ _ hmem
  rw [moveB3] at this
  exact this

/-- Iteration 1 of the counterexample run, at the embedding level. -/
lemma iter1_c8 :
    solverIter srcParams gC8 1 pos8 = fun n => ((p1R n : ℝ) : ℂ) := by
  show stepPos srcParams gC8 (tempAt srcParams 0) (solverIter srcParams gC8 0 pos8) = _
  show stepPos srcParams gC8 (tempAt srcParams 0) pos8 = _
  rw [show pos8 = fun n => ((p0R n : ℝ) : ℂ) from rfl, stepPos_ofReal, stepR1]

/-- Iteration 2 of the counterexample run, at the embedding level. -/
lemma iter2_c8 :
    solverIter srcParams gC8 2 pos8 = fun n => ((p2R n : ℝ) : ℂ) := by
  show stepPos srcParams gC8 (tempAt srcParams 1) (solverIter srcParams gC8 1 pos8) = _
  rw [iter1_c8, stepPos_ofReal, stepR2]

/-- Iteration 3 of the counterexample run, at the embedding level. -/
lemma iter3_c8 :
    solverIter srcParams gC8 3 pos8
      = fun n => ((stepPosR srcParams gC8 (tempAt srcParams 2) p2R n : ℝ) : ℂ) := by
  show stepPos srcParams gC8 (tempAt srcParams 2) (solverIter srcParams gC8 2 pos8) = _
  rw [iter2_c8, stepPos_ofReal]

/-- C8 (amended): what is monotone is the annealing bound, not the
realised displacement: in every iteration the largest applied move is at
most the temperature of that iteration, and the temperature itself
strictly decreases at every step. -/
theorem annealing_bound_monotone (g : FGraph) (p0 : Node → ℂ) (t : ℕ) :
    maxMove g (solverIter srcParams g t p0) (solverIter srcParams g (t + 1) p0)
      ≤ tempAt srcParams t
    ∧ tempAt srcParams (t + 1) < tempAt srcParams t := by
  constructor
  · unfold maxMove
    apply listMax_le _ _ (tempAt_src_pos t).le
    intro x hx
    obtain ⟨n, _, rfl⟩ := List.mem_map.mp hx
    rw [show solverIter srcParams g (t + 1) p0
        = stepPos srcParams g (tempAt srcParams t) (solverIter srcParams g t p0)
      from rfl]
    exact abs_stepPos_sub_le srcParams g _ _ n (tempAt_src_pos t).le
  · unfold tempAt srcParams
    have hp : (0 : ℝ) < (0.95 : ℝ) ^ t := by positivity
    rw [pow_succ]
    nlinarith

/-- Counterexample for C8: in the concrete four-node complete-graph run,
the temperatures of iterations 2 and 3 are already below the clamp value
0.5 of the first iteration, yet the largest applied displacement grows
from iteration 2 (about 0.406) to iteration 3 (exactly 361/800 =
0.45125, the clamped move of node B). -/
theorem annealing_not_monotone :
    tempAt srcParams 1 < srcParams.temp0
    ∧ tempAt srcParams 2 < srcParams.temp0
    ∧ maxMove gC8 (solverIter srcParams gC8 1 (pinAnchor pos8))
        (solverIter srcParams gC8 2 (pinAnchor pos8))
      < maxMove gC8 (solverIter srcParams gC8 2 (pinAnchor pos8))
          (solverIter srcParams gC8 3 (pinAnchor pos8)) := by
  refine ⟨by unfold tempAt srcParams; norm_num, by unfold tempAt srcParams; norm_num, ?_⟩
  rw [pin_pos8, iter1_c8, iter2_c8, iter3_c8]
  exact lt_of_lt_of_le maxMove2_lt maxMove3_ge

end StringNetwork
